import Mathlib

set_option maxHeartbeats 1000000

/-
Verification development for the RealTymTracker server (src/server.js).

Part 1 embeds the CommitQueue class (lines 51-73) as a small-step transition
system over the JavaScript event loop: `push` appends a task to the internal
array and invokes `_run`, which returns at once when `running` is already set
and otherwise sets `running` and drains the queue, awaiting each task in turn
inside a try/catch before clearing `running`.  Tasks are identified by the
order in which `push` appended them (0, 1, 2, ...).  The `trace` field records
the chronological start/finish events of task executions, `workers` counts the
`_run` invocations that passed the `if (this.running) return` guard and have
not yet returned, and `errLog` records the ids logged by the
`console.error('Commit task error:', err)` branch.
-/

inductive QEvent where
  | start (id : Nat)
  | finish (id : Nat) (ok : Bool)
deriving DecidableEq, Repr

structure QState where
  queue : List Nat
  running : Bool
  workers : Nat
  current : Option Nat
  nextId : Nat
  trace : List QEvent
  errLog : List Nat
deriving DecidableEq, Repr

def initState : QState := ⟨[], false, 0, none, 0, [], []⟩

/-- `push(task)` (server.js line 56): append to the FIFO, then `_run()`;
the guard `if (this.running) return` runs synchronously, so when the queue
was idle exactly one new worker loop is entered. -/
def pushState (s : QState) : QState :=
  { s with queue := s.queue ++ [s.nextId], nextId := s.nextId + 1,
           running := true,
           workers := if s.running then s.workers else s.workers + 1 }

/-- The worker loop removes the head task (`this.queue.shift()`) and begins
awaiting it (server.js line 64-66). -/
def beginState (s : QState) (i : Nat) (rest : List Nat) : QState :=
  { s with queue := rest, current := some i, trace := s.trace ++ [QEvent.start i] }

/-- The awaited task resolved; control returns to the loop. -/
def endOkState (s : QState) (i : Nat) : QState :=
  { s with current := none, trace := s.trace ++ [QEvent.finish i true] }

/-- The awaited task rejected; the catch branch logs and the loop continues
(server.js lines 67-69). -/
def endFailState (s : QState) (i : Nat) : QState :=
  { s with current := none, trace := s.trace ++ [QEvent.finish i false],
           errLog := s.errLog ++ [i] }

/-- The loop observed an empty queue and clears `running` (line 71),
the worker invocation returns. -/
def stopState (s : QState) : QState :=
  { s with running := false, workers := s.workers - 1 }

inductive QStep : QState → QState → Prop where
  | push (s : QState) : QStep s (pushState s)
  | beginTask (s : QState) (i : Nat) (rest : List Nat) :
      s.running = true → s.current = none → s.queue = i :: rest →
      QStep s (beginState s i rest)
  | endOk (s : QState) (i : Nat) : s.current = some i → QStep s (endOkState s i)
  | endFail (s : QState) (i : Nat) : s.current = some i → QStep s (endFailState s i)
  | stopWorker (s : QState) :
      s.running = true → s.current = none → s.queue = [] → QStep s (stopState s)

inductive Reachable : QState → Prop where
  | init : Reachable initState
  | step {s s' : QState} : Reachable s → QStep s s' → Reachable s'

/-- `[a, a+1, ..., a+m-1]`. -/
def idsFrom : Nat → Nat → List Nat
  | _, 0 => []
  | a, m+1 => a :: idsFrom (a+1) m

theorem idsFrom_snoc (m a : Nat) : idsFrom a (m+1) = idsFrom a m ++ [a + m] := by
  induction m generalizing a with
  | zero => simp [idsFrom]
  | succ m ih =>
    show a :: idsFrom (a+1) (m+1) = (a :: idsFrom (a+1) m) ++ [a + (m+1)]
    rw [ih (a+1)]
    have h : a + 1 + m = a + (m + 1) := by omega
    simp [h]

theorem idsFrom_cons {a m i : Nat} {rest : List Nat} (h : idsFrom a m = i :: rest) :
    i = a ∧ ∃ m', m = m' + 1 ∧ rest = idsFrom (a+1) m' := by
  cases m with
  | zero => simp [idsFrom] at h
  | succ m =>
    simp only [idsFrom, List.cons.injEq] at h
    exact ⟨h.1.symm, m, rfl, h.2.symm⟩

/-- The chronological trace produced by executing tasks `a, a+1, ...` one at a
time to completion, with outcome flags `flags`. -/
def pairsFrom : Nat → List Bool → List QEvent
  | _, [] => []
  | a, ok :: rest => QEvent.start a :: QEvent.finish a ok :: pairsFrom (a+1) rest

theorem pairsFrom_snoc (flags : List Bool) (a : Nat) (ok : Bool) :
    pairsFrom a (flags ++ [ok]) =
      pairsFrom a flags ++
        [QEvent.start (a + flags.length), QEvent.finish (a + flags.length) ok] := by
  induction flags generalizing a with
  | nil => simp [pairsFrom]
  | cons b tl ih =>
    have h : a + 1 + tl.length = a + (tl.length + 1) := by omega
    simp [pairsFrom, ih (a+1), h]

/-- Shape of the execution trace: completed start/finish pairs for tasks
`0..k-1`, with the final finish still pending exactly when a task is
currently being awaited. -/
def TraceShape (tr : List QEvent) (k : Nat) (cur : Option Nat) : Prop :=
  match cur with
  | none => ∃ flags : List Bool, flags.length = k ∧ tr = pairsFrom 0 flags
  | some i =>
      i + 1 = k ∧
      ∃ flags : List Bool, flags.length = i ∧ tr = pairsFrom 0 flags ++ [QEvent.start i]

/-- The reachable-state invariant of the CommitQueue. -/
def QInv (s : QState) : Prop :=
  ∃ k, k ≤ s.nextId ∧ s.queue = idsFrom k (s.nextId - k) ∧
    TraceShape s.trace k s.current ∧
    (s.current ≠ none → s.running = true) ∧
    (s.running = false → s.queue = [] ∧ s.current = none) ∧
    s.workers = (if s.running then 1 else 0)

theorem qinv_init : QInv initState := by
  refine ⟨0, by simp [initState], by simp [initState, idsFrom], ?_, ?_, ?_, ?_⟩
  · exact ⟨[], rfl, rfl⟩
  · simp [initState]
  · simp [initState]
  · simp [initState]

theorem qinv_step {s s' : QState} (h : QInv s) (hs : QStep s s') : QInv s' := by
  obtain ⟨k, hk, hq, hsh, hcr, hnr, hw⟩ := h
  cases hs with
  | push =>
    refine ⟨k, by simp [pushState]; omega, ?_, ?_, ?_, ?_, ?_⟩
    · show s.queue ++ [s.nextId] = idsFrom k (s.nextId + 1 - k)
      rw [hq]
      have h1 : s.nextId + 1 - k = (s.nextId - k) + 1 := by omega
      have h2 : k + (s.nextId - k) = s.nextId := by omega
      rw [h1, idsFrom_snoc, h2]
    · exact hsh
    · intro _; rfl
    · intro hfalse; simp [pushState] at hfalse
    · show (if s.running then s.workers else s.workers + 1) = (if true then 1 else 0)
      cases hr : s.running <;> simp [hr] at hw ⊢ <;> omega
  | beginTask i rest hrun hcur hqueue =>
    have hq' : idsFrom k (s.nextId - k) = i :: rest := hq ▸ hqueue
    obtain ⟨hi, m', hm, hrest⟩ := idsFrom_cons hq'
    subst hi
    refine ⟨i + 1, ?_, ?_, ?_, ?_, ?_, ?_⟩
    · show i + 1 ≤ s.nextId
      omega
    · show rest = idsFrom (i + 1) (s.nextId - (i + 1))
      have h1 : s.nextId - (i + 1) = m' := by omega
      rw [h1, hrest]
    · rw [hcur] at hsh
      obtain ⟨flags, hlen, htr⟩ := hsh
      exact ⟨rfl, flags, hlen, by simp [beginState, htr]⟩
    · intro _; exact hrun
    · intro hfalse; rw [show (beginState s i rest).running = s.running from rfl] at hfalse
      rw [hrun] at hfalse; cases hfalse
    · show s.workers = (if s.running then 1 else 0)
      exact hw
  | endOk i hcur =>
    rw [hcur] at hsh
    obtain ⟨hik, flags, hlen, htr⟩ := hsh
    refine ⟨k, hk, hq, ?_, ?_, ?_, hw⟩
    · refine ⟨flags ++ [true], ?_, ?_⟩
      · simp [hlen]; omega
      · show s.trace ++ [QEvent.finish i true] = pairsFrom 0 (flags ++ [true])
        rw [pairsFrom_snoc, htr, hlen]
        simp
    · intro h; simp [endOkState] at h
    · intro hfalse
      have hrun : s.running = true := hcr (by simp [hcur])
      have hfalse' : s.running = false := hfalse
      rw [hrun] at hfalse'; cases hfalse'
  | endFail i hcur =>
    rw [hcur] at hsh
    obtain ⟨hik, flags, hlen, htr⟩ := hsh
    refine ⟨k, hk, hq, ?_, ?_, ?_, hw⟩
    · refine ⟨flags ++ [false], ?_, ?_⟩
      · simp [hlen]; omega
      · show s.trace ++ [QEvent.finish i false] = pairsFrom 0 (flags ++ [false])
        rw [pairsFrom_snoc, htr, hlen]
        simp
    · intro h; simp [endFailState] at h
    · intro hfalse
      have hrun : s.running = true := hcr (by simp [hcur])
      have hfalse' : s.running = false := hfalse
      rw [hrun] at hfalse'; cases hfalse'
  | stopWorker hrun hcur hqueue =>
    refine ⟨k, hk, hq, hsh, ?_, ?_, ?_⟩
    · intro h; rw [show (stopState s).current = s.current from rfl, hcur] at h
      exact absurd rfl h
    · intro _; exact ⟨hqueue, hcur⟩
    · show s.workers - 1 = (if false then 1 else 0)
      rw [hw, hrun]; simp

theorem reachable_qinv {s : QState} (h : Reachable s) : QInv s := by
  induction h with
  | init => exact qinv_init
  | step _ hstep ih => exact qinv_step ih hstep

/-- Position lookup in a trace. -/
def nthEv : List QEvent → Nat → Option QEvent
  | [], _ => none
  | e :: _, 0 => some e
  | _ :: tl, p+1 => nthEv tl p

/-- Number of `start i` events in a trace. -/
def countStart (tr : List QEvent) (i : Nat) : Nat :=
  tr.countP (fun e => decide (e = QEvent.start i))

/-- Task `i` has a finish event (successful or failed) at position `p`. -/
def finishesAt (tr : List QEvent) (p : Nat) (i : Nat) : Prop :=
  nthEv tr p = some (QEvent.finish i true) ∨ nthEv tr p = some (QEvent.finish i false)

theorem nthEv_append_left {l₁ : List QEvent} (l₂ : List QEvent) {p : Nat}
    (h : p < l₁.length) : nthEv (l₁ ++ l₂) p = nthEv l₁ p := by
  induction l₁ generalizing p with
  | nil => simp at h
  | cons e tl ih =>
    cases p with
    | zero => rfl
    | succ p => exact ih (by simpa using h)

theorem nthEv_snoc {l : List QEvent} {x e : QEvent} {p : Nat}
    (h : nthEv (l ++ [x]) p = some e) :
    (p < l.length ∧ nthEv l p = some e) ∨ (p = l.length ∧ e = x) := by
  induction l generalizing p with
  | nil =>
    cases p with
    | zero => simp [nthEv] at h; simp [h]
    | succ p => simp [nthEv] at h
  | cons a tl ih =>
    cases p with
    | zero =>
      simp [nthEv] at h
      exact Or.inl ⟨by simp, by simp [nthEv, h]⟩
    | succ p =>
      rcases ih (p := p) h with ⟨h1, h2⟩ | ⟨h1, h2⟩
      · exact Or.inl ⟨by simpa using Nat.succ_lt_succ h1, h2⟩
      · exact Or.inr ⟨by simp [h1], h2⟩

theorem pairsFrom_length (flags : List Bool) (a : Nat) :
    (pairsFrom a flags).length = 2 * flags.length := by
  induction flags generalizing a with
  | nil => simp [pairsFrom]
  | cons b tl ih => simp [pairsFrom, ih (a+1)]; omega

/-- Any `start i` in a completed-pairs trace sits at position `2*(i-a)`. -/
theorem pairsFrom_start_pos {flags : List Bool} {a p i : Nat}
    (h : nthEv (pairsFrom a flags) p = some (QEvent.start i)) :
    a ≤ i ∧ i - a < flags.length ∧ p = 2 * (i - a) := by
  induction flags generalizing a p with
  | nil => simp [pairsFrom, nthEv] at h
  | cons b tl ih =>
    match p with
    | 0 =>
      simp [pairsFrom, nthEv] at h
      subst h
      exact ⟨Nat.le_refl _, by simp, by simp⟩
    | 1 => simp [pairsFrom, nthEv] at h
    | p+2 =>
      have h' : nthEv (pairsFrom (a+1) tl) p = some (QEvent.start i) := h
      obtain ⟨h1, h2, h3⟩ := ih h'
      refine ⟨by omega, by simp; omega, by omega⟩

/-- Any `finish i` in a completed-pairs trace sits at position `2*(i-a)+1`. -/
theorem pairsFrom_finish_pos {flags : List Bool} {a p i : Nat} {ok : Bool}
    (h : nthEv (pairsFrom a flags) p = some (QEvent.finish i ok)) :
    a ≤ i ∧ i - a < flags.length ∧ p = 2 * (i - a) + 1 := by
  induction flags generalizing a p with
  | nil => simp [pairsFrom, nthEv] at h
  | cons b tl ih =>
    match p with
    | 0 => simp [pairsFrom, nthEv] at h
    | 1 =>
      simp [pairsFrom, nthEv] at h
      obtain ⟨h1, -⟩ := h
      subst h1
      exact ⟨Nat.le_refl _, by simp, by simp⟩
    | p+2 =>
      have h' : nthEv (pairsFrom (a+1) tl) p = some (QEvent.finish i ok) := h
      obtain ⟨h1, h2, h3⟩ := ih h'
      refine ⟨by omega, by simp; omega, by omega⟩

/-- Every task covered by a completed-pairs trace has a finish event in it. -/
theorem pairsFrom_finishesAt {flags : List Bool} {a i : Nat}
    (h1 : a ≤ i) (h2 : i - a < flags.length) :
    finishesAt (pairsFrom a flags) (2 * (i - a) + 1) i := by
  induction flags generalizing a with
  | nil => simp at h2
  | cons b tl ih =>
    rcases Nat.eq_or_lt_of_le h1 with heq | hlt
    · subst heq
      simp only [Nat.sub_self]
      cases b
      · exact Or.inr rfl
      · exact Or.inl rfl
    · have h1' : a + 1 ≤ i := hlt
      have h2' : i - (a + 1) < tl.length := by simp at h2; omega
      have := ih h1' h2'
      have hpos : 2 * (i - a) + 1 = (2 * (i - (a+1)) + 1) + 2 := by omega
      rw [hpos]
      rcases this with hl | hr
      · exact Or.inl hl
      · exact Or.inr hr

theorem shape_start_pos {tr : List QEvent} {k : Nat} {cur : Option Nat} {p i : Nat}
    (hsh : TraceShape tr k cur) (h : nthEv tr p = some (QEvent.start i)) :
    p = 2 * i ∧ i < k := by
  cases cur with
  | none =>
    obtain ⟨flags, hlen, htr⟩ := hsh
    rw [htr] at h
    obtain ⟨-, h2, h3⟩ := pairsFrom_start_pos h
    omega
  | some i0 =>
    obtain ⟨hik, flags, hlen, htr⟩ := hsh
    rw [htr] at h
    rcases nthEv_snoc h with ⟨hp, hin⟩ | ⟨hp, hval⟩
    · obtain ⟨-, h2, h3⟩ := pairsFrom_start_pos hin
      omega
    · have : i = i0 := by cases hval; rfl
      subst this
      rw [pairsFrom_length, hlen] at hp
      omega

theorem shape_finish_pos {tr : List QEvent} {k : Nat} {cur : Option Nat} {p i : Nat}
    {b : Bool} (hsh : TraceShape tr k cur) (h : nthEv tr p = some (QEvent.finish i b)) :
    p = 2 * i + 1 ∧ i < k := by
  cases cur with
  | none =>
    obtain ⟨flags, hlen, htr⟩ := hsh
    rw [htr] at h
    obtain ⟨-, h2, h3⟩ := pairsFrom_finish_pos h
    omega
  | some i0 =>
    obtain ⟨hik, flags, hlen, htr⟩ := hsh
    rw [htr] at h
    rcases nthEv_snoc h with ⟨hp, hin⟩ | ⟨hp, hval⟩
    · obtain ⟨-, h2, h3⟩ := pairsFrom_finish_pos hin
      omega
    · cases hval

theorem shape_finish_before {tr : List QEvent} {k : Nat} {cur : Option Nat}
    {q j i : Nat} (hsh : TraceShape tr k cur)
    (hstart : nthEv tr q = some (QEvent.start j)) (hij : i < j) :
    2 * i + 1 < q ∧ finishesAt tr (2 * i + 1) i := by
  obtain ⟨hq, hjk⟩ := shape_start_pos hsh hstart
  cases cur with
  | none =>
    obtain ⟨flags, hlen, htr⟩ := hsh
    have hfin : finishesAt (pairsFrom 0 flags) (2 * (i - 0) + 1) i :=
      pairsFrom_finishesAt (Nat.zero_le i) (by omega)
    simp only [Nat.sub_zero] at hfin
    rw [htr]
    exact ⟨by omega, hfin⟩
  | some i0 =>
    obtain ⟨hik, flags, hlen, htr⟩ := hsh
    have hii0 : i < i0 := by omega
    have hfin : finishesAt (pairsFrom 0 flags) (2 * (i - 0) + 1) i :=
      pairsFrom_finishesAt (Nat.zero_le i) (by omega)
    simp only [Nat.sub_zero] at hfin
    have hlt : 2 * i + 1 < (pairsFrom 0 flags).length := by
      rw [pairsFrom_length, hlen]; omega
    rw [htr]
    refine ⟨by omega, ?_⟩
    rcases hfin with hl | hr
    · exact Or.inl (by rw [nthEv_append_left _ hlt]; exact hl)
    · exact Or.inr (by rw [nthEv_append_left _ hlt]; exact hr)

/-- C1: tasks pushed onto the CommitQueue execute strictly one at a time in
push order.  If task `i` was pushed before task `j` (`i < j`) and `j` has
started (a `start j` event sits at trace position `q`), then task `i` already
ran to completion or failure: a `finish i` event sits at the earlier position
`2*i+1`.  Moreover the execution intervals of two distinct tasks `a` and `c`
never overlap: any `start c` lies entirely outside `a`'s `[start, finish]`
span. -/
theorem c1_fifo_no_overlap (s : QState) (i j q a c pa qa pc : Nat) (b : Bool)
    (hs : Reachable s) (hij : i < j)
    (hstart : nthEv s.trace q = some (QEvent.start j))
    (hne : a ≠ c)
    (hpa : nthEv s.trace pa = some (QEvent.start a))
    (hqa : nthEv s.trace qa = some (QEvent.finish a b))
    (hpc : nthEv s.trace pc = some (QEvent.start c)) :
    (2 * i + 1 < q ∧ finishesAt s.trace (2 * i + 1) i) ∧ (pc < pa ∨ qa < pc) := by
  obtain ⟨k, -, -, hsh, -, -, -⟩ := reachable_qinv hs
  refine ⟨shape_finish_before hsh hstart hij, ?_⟩
  obtain ⟨hpa', -⟩ := shape_start_pos hsh hpa
  obtain ⟨hqa', -⟩ := shape_finish_pos hsh hqa
  obtain ⟨hpc', -⟩ := shape_start_pos hsh hpc
  rcases Nat.lt_or_ge a c with hlt | hge
  · right; omega
  · left
    have : c < a := by omega
    omega

/-- A concrete reachable state: two tasks pushed, task 0 executed to
completion, task 1 currently executing. -/
def wState : QState :=
  beginState (endOkState (beginState (pushState (pushState initState)) 0 [1]) 0) 1 []

theorem wState_reachable : Reachable wState :=
  Reachable.step
    (Reachable.step
      (Reachable.step
        (Reachable.step (Reachable.step Reachable.init (QStep.push _)) (QStep.push _))
        (QStep.beginTask _ 0 [1] rfl rfl rfl))
      (QStep.endOk _ 0 rfl))
    (QStep.beginTask _ 1 [] rfl rfl rfl)

theorem c1_fifo_no_overlap_witness :
    (2 * 0 + 1 < 2 ∧ finishesAt wState.trace (2 * 0 + 1) 0) ∧ (2 < 0 ∨ 1 < 2) :=
  c1_fifo_no_overlap wState 0 1 2 0 1 0 1 2 true wState_reachable (by omega) rfl
    (by omega) rfl rfl rfl

/-- C2: the CommitQueue maintains at most one active worker loop.  In every
reachable state the number of in-flight `_run` invocations is 1 when the
`running` flag is set and 0 when it is not (hence always at most one); a
`push` in an idle state enters the worker loop exactly once, and a `push`
while a worker is draining does not enter it again. -/
theorem c2_single_worker (s : QState) (hs : Reachable s) :
    s.workers ≤ 1 ∧ s.workers = (if s.running then 1 else 0) ∧
    (s.running = false →
      (pushState s).workers = s.workers + 1 ∧ (pushState s).running = true ∧
      (pushState s).workers = 1) ∧
    (s.running = true →
      (pushState s).workers = s.workers ∧ (pushState s).running = true) := by
  obtain ⟨k, -, -, -, -, -, hw⟩ := reachable_qinv hs
  refine ⟨?_, hw, ?_, ?_⟩
  · rw [hw]; cases s.running <;> simp
  · intro h
    have hw0 : s.workers = 0 := by rw [hw, h]; rfl
    simp [pushState, h, hw0]
  · intro h
    simp [pushState, h]

theorem c2_single_worker_witness :
    wState.workers ≤ 1 ∧ wState.workers = (if wState.running then 1 else 0) ∧
    (wState.running = false →
      (pushState wState).workers = wState.workers + 1 ∧
      (pushState wState).running = true ∧ (pushState wState).workers = 1) ∧
    (wState.running = true →
      (pushState wState).workers = wState.workers ∧
      (pushState wState).running = true) :=
  c2_single_worker wState wState_reachable

/-
Embedding of `makeCommitTask` (server.js lines 84-99).  The returned async
task writes the log file with `fs.writeFile` and then runs `git add` and
`git commit` inside an inner try/catch of its own: a git failure is logged
(`console.error('Git error:', ...)`) and the task still resolves; only a
rejection of the `fs.writeFile` call escapes the task, to be caught by the
worker loop's catch.  The environment records the outcome each external call
would have. -/

structure TaskEnv where
  writeResult : Except String Unit
  gitAddResult : Except String Unit
  gitCommitResult : Except String Unit
deriving Repr

inductive TaskLogEntry where
  | committed
  | gitError (msg : String)
deriving DecidableEq, Repr

/-- Runs the task returned by `makeCommitTask`: `.error e` means the task's
promise rejects with `e`; `.ok logs` means it resolves, having logged `logs`. -/
def runCommitTask (env : TaskEnv) : Except String (List TaskLogEntry) :=
  match env.writeResult with
  | Except.error e => Except.error e
  | Except.ok _ =>
    match env.gitAddResult with
    | Except.error e => Except.ok [TaskLogEntry.gitError e]
    | Except.ok _ =>
      match env.gitCommitResult with
      | Except.error e => Except.ok [TaskLogEntry.gitError e]
      | Except.ok _ => Except.ok [TaskLogEntry.committed]

/-- C3: a failing task never halts the queue.  When the currently executing
task rejects, the worker's catch fires: the failure step is a legal step,
it logs the task id, leaves the pending queue, the running flag, the worker
count and the push counter untouched, and the next queued task can start
immediately afterwards.  Moreover a git stage/commit failure inside
`makeCommitTask` is already caught inside the task itself: whenever the file
write succeeds the task resolves (no rejection reaches the worker, let alone
the mutation's caller). -/
theorem c3_failure_isolated (s : QState) (i j : Nat) (rest : List Nat)
    (env : TaskEnv) (hs : Reachable s) (hc : s.current = some i)
    (hqueue : s.queue = j :: rest) :
    QStep s (endFailState s i) ∧
    (endFailState s i).errLog = s.errLog ++ [i] ∧
    (endFailState s i).queue = s.queue ∧
    (endFailState s i).running = s.running ∧
    (endFailState s i).workers = s.workers ∧
    (endFailState s i).nextId = s.nextId ∧
    QStep (endFailState s i) (beginState (endFailState s i) j rest) ∧
    (env.writeResult = Except.ok () → (runCommitTask env).isOk = true) := by
  obtain ⟨k, -, -, -, hcr, -, -⟩ := reachable_qinv hs
  have hrun : s.running = true := hcr (by simp [hc])
  refine ⟨QStep.endFail s i hc, rfl, rfl, rfl, rfl, rfl, ?_, ?_⟩
  · exact QStep.beginTask _ j rest hrun rfl hqueue
  · intro hw
    unfold runCommitTask
    rw [hw]
    cases env.gitAddResult with
    | error e => rfl
    | ok u =>
      cases env.gitCommitResult with
      | error e => rfl
      | ok u => rfl

/-- A concrete reachable state with a task in flight and another pending:
three tasks pushed, task 0 completed, task 1 executing, task 2 queued. -/
def wState2 : QState :=
  beginState (endOkState (beginState (pushState (pushState (pushState initState))) 0 [1, 2]) 0)
    1 [2]

theorem wState2_reachable : Reachable wState2 :=
  Reachable.step
    (Reachable.step
      (Reachable.step
        (Reachable.step
          (Reachable.step (Reachable.step Reachable.init (QStep.push _)) (QStep.push _))
          (QStep.push _))
        (QStep.beginTask _ 0 [1, 2] rfl rfl rfl))
      (QStep.endOk _ 0 rfl))
    (QStep.beginTask _ 1 [2] rfl rfl rfl)

theorem c3_failure_isolated_witness :
    QStep wState2 (endFailState wState2 1) ∧
    (endFailState wState2 1).errLog = wState2.errLog ++ [1] ∧
    (endFailState wState2 1).queue = wState2.queue ∧
    (endFailState wState2 1).running = wState2.running ∧
    (endFailState wState2 1).workers = wState2.workers ∧
    (endFailState wState2 1).nextId = wState2.nextId ∧
    QStep (endFailState wState2 1) (beginState (endFailState wState2 1) 2 []) ∧
    ((TaskEnv.mk (Except.ok ()) (Except.error "git add failed") (Except.ok ())).writeResult =
        Except.ok () →
      (runCommitTask
          (TaskEnv.mk (Except.ok ()) (Except.error "git add failed") (Except.ok ()))).isOk =
        true) :=
  c3_failure_isolated wState2 1 2 []
    (TaskEnv.mk (Except.ok ()) (Except.error "git add failed") (Except.ok ()))
    wState2_reachable rfl rfl

theorem idsFrom_nil {a m : Nat} (h : idsFrom a m = []) : m = 0 := by
  cases m with
  | zero => rfl
  | succ m => simp [idsFrom] at h

/-- Remaining work of the worker loop: two steps per pending task, one for a
task in flight. -/
def qMeasure (s : QState) : Nat :=
  2 * s.queue.length + (match s.current with | some _ => 1 | none => 0)

/-- Executable drain: runs the worker loop (without further pushes) until the
queue is empty and no task is in flight. -/
def drainRun : Nat → QState → QState
  | 0, s => s
  | fuel+1, s =>
    match s.current with
    | some i => drainRun fuel (endOkState s i)
    | none =>
      match s.queue with
      | [] => s
      | j :: rest => drainRun fuel (beginState s j rest)

/-- A run of worker-only steps (no `push`: the task counter never moves). -/
inductive Drain : QState → QState → Prop where
  | refl (s : QState) : Drain s s
  | more {s s' s'' : QState} :
      QStep s s' → s'.nextId = s.nextId → Drain s' s'' → Drain s s''

theorem drain_correct :
    ∀ fuel s, QInv s → qMeasure s ≤ fuel →
      Drain s (drainRun fuel s) ∧ QInv (drainRun fuel s) ∧
      (drainRun fuel s).nextId = s.nextId ∧
      (drainRun fuel s).queue = [] ∧ (drainRun fuel s).current = none := by
  intro fuel
  induction fuel with
  | zero =>
    intro s hinv hm
    have hq : s.queue = [] := by
      cases hql : s.queue with
      | nil => rfl
      | cons a l => simp [qMeasure, hql] at hm
    have hc : s.current = none := by
      cases hcl : s.current with
      | none => rfl
      | some i => simp [qMeasure, hcl] at hm
    exact ⟨Drain.refl s, hinv, rfl, hq, hc⟩
  | succ fuel ih =>
    intro s hinv hm
    cases hcl : s.current with
    | some i =>
      have hstep : QStep s (endOkState s i) := QStep.endOk s i hcl
      have hinv' := qinv_step hinv hstep
      have hm' : qMeasure (endOkState s i) ≤ fuel := by
        simp [qMeasure, hcl, endOkState] at hm ⊢
        omega
      have heq : drainRun (fuel+1) s = drainRun fuel (endOkState s i) := by
        simp [drainRun, hcl]
      rw [heq]
      obtain ⟨hd, hinv'', hnid, hq, hc⟩ := ih (endOkState s i) hinv' hm'
      exact ⟨Drain.more hstep rfl hd, hinv'', hnid, hq, hc⟩
    | none =>
      cases hql : s.queue with
      | nil =>
        have heq : drainRun (fuel+1) s = s := by simp [drainRun, hcl, hql]
        rw [heq]
        exact ⟨Drain.refl s, hinv, rfl, hql, hcl⟩
      | cons j rest =>
        have hrun : s.running = true := by
          obtain ⟨k, -, -, -, -, hnr, -⟩ := hinv
          cases hr : s.running
          · obtain ⟨he, -⟩ := hnr hr
            rw [hql] at he
            cases he
          · rfl
        have hstep : QStep s (beginState s j rest) := QStep.beginTask s j rest hrun hcl hql
        have hinv' := qinv_step hinv hstep
        have hm' : qMeasure (beginState s j rest) ≤ fuel := by
          simp [qMeasure, hcl, hql, beginState] at hm ⊢
          omega
        have heq : drainRun (fuel+1) s = drainRun fuel (beginState s j rest) := by
          simp [drainRun, hcl, hql]
        rw [heq]
        obtain ⟨hd, hinv'', hnid, hq, hc⟩ := ih (beginState s j rest) hinv' hm'
        exact ⟨Drain.more hstep rfl hd, hinv'', hnid, hq, hc⟩

theorem countStart_pairsFrom (flags : List Bool) (a i : Nat) :
    countStart (pairsFrom a flags) i = if a ≤ i ∧ i < a + flags.length then 1 else 0 := by
  induction flags generalizing a with
  | nil =>
    simp only [pairsFrom, countStart, List.countP_nil, List.length_nil, Nat.add_zero]
    split_ifs <;> omega
  | cons b tl ih =>
    have htl := ih (a+1)
    simp only [countStart] at htl ⊢
    simp only [pairsFrom, List.countP_cons, htl, List.length_cons,
      decide_eq_true_eq, QEvent.start.injEq]
    have h2 : (QEvent.finish a b = QEvent.start i) = False := by
      apply eq_false
      intro h
      cases h
    simp only [h2, if_false]
    split_ifs <;> omega

theorem shape_countStart {tr : List QEvent} {k : Nat} {cur : Option Nat} {i : Nat}
    (hsh : TraceShape tr k cur) : countStart tr i = if i < k then 1 else 0 := by
  cases cur with
  | none =>
    obtain ⟨flags, hlen, htr⟩ := hsh
    rw [htr, countStart_pairsFrom, hlen]
    simp
  | some i0 =>
    obtain ⟨hik, flags, hlen, htr⟩ := hsh
    rw [htr]
    simp only [countStart, List.countP_append]
    have h1 := countStart_pairsFrom flags 0 i
    simp only [countStart] at h1
    rw [h1, hlen]
    simp only [List.countP_cons, List.countP_nil, decide_eq_true_eq, QEvent.start.injEq]
    split_ifs <;> omega

/-- C8: every pushed task is attempted exactly once, in push order.  In any
reachable state no task has more than one `start` event; `start` events occur
in push order; and running the worker loop to quiescence (`drainRun`, a legal
sequence of worker steps) leaves every pushed task with exactly one `start`
event — none skipped, none repeated — and never starts a task that was not
pushed. -/
theorem c8_exactly_once (s : QState) (i j p q : Nat) (hs : Reachable s) :
    countStart s.trace i ≤ 1 ∧
    (i < j → nthEv s.trace p = some (QEvent.start i) →
      nthEv s.trace q = some (QEvent.start j) → p < q) ∧
    Drain s (drainRun (qMeasure s) s) ∧
    (i < s.nextId → countStart (drainRun (qMeasure s) s).trace i = 1) ∧
    (s.nextId ≤ i → countStart (drainRun (qMeasure s) s).trace i = 0) := by
  have hinv := reachable_qinv hs
  obtain ⟨hd, hinv', hnid, hq', hc'⟩ :=
    drain_correct (qMeasure s) s hinv (Nat.le_refl _)
  obtain ⟨k, hk, hqeq, hsh, -, -, -⟩ := hinv
  refine ⟨?_, ?_, hd, ?_, ?_⟩
  · rw [shape_countStart hsh]
    split_ifs <;> omega
  · intro hij hp hq
    obtain ⟨hp', -⟩ := shape_start_pos hsh hp
    obtain ⟨hq', -⟩ := shape_start_pos hsh hq
    omega
  · intro hi
    obtain ⟨k', hk', hqeq', hsh', -, -, -⟩ := hinv'
    rw [hq'] at hqeq'
    have hm0 : (drainRun (qMeasure s) s).nextId - k' = 0 := idsFrom_nil hqeq'.symm
    rw [hc'] at hsh'
    rw [shape_countStart hsh']
    rw [hnid] at hk' hm0
    have : k' = s.nextId := by omega
    simp [this, hi]
  · intro hi
    obtain ⟨k', hk', hqeq', hsh', -, -, -⟩ := hinv'
    rw [hq'] at hqeq'
    have hm0 : (drainRun (qMeasure s) s).nextId - k' = 0 := idsFrom_nil hqeq'.symm
    rw [hc'] at hsh'
    rw [shape_countStart hsh']
    rw [hnid] at hk' hm0
    have : k' = s.nextId := by omega
    simp [this]
    omega

theorem c8_exactly_once_witness :
    countStart wState2.trace 0 ≤ 1 ∧
    (0 < 1 → nthEv wState2.trace 0 = some (QEvent.start 0) →
      nthEv wState2.trace 2 = some (QEvent.start 1) → 0 < 2) ∧
    Drain wState2 (drainRun (qMeasure wState2) wState2) ∧
    (0 < wState2.nextId → countStart (drainRun (qMeasure wState2) wState2).trace 0 = 1) ∧
    (wState2.nextId ≤ 0 → countStart (drainRun (qMeasure wState2) wState2).trace 0 = 0) :=
  c8_exactly_once wState2 0 1 0 2 wState2_reachable

/-
Part 2: audit entry names.  Each mutation handler computes
`const ts = new Date().toISOString().replace(/[:.]/g,'-')` and uses it in the
log filename (server.js lines 137-138, 160-161, 188-189).
`Date.prototype.toISOString` renders `YYYY-MM-DDTHH:mm:ss.sssZ` with
zero-padded fields and millisecond resolution; the regex replaces every colon
and dot by a dash.
-/

def digitChar (n : Nat) : Char := Char.ofNat (48 + n)

def pad2 (n : Nat) : List Char := [digitChar (n / 10 % 10), digitChar (n % 10)]

def pad3 (n : Nat) : List Char :=
  [digitChar (n / 100 % 10), digitChar (n / 10 % 10), digitChar (n % 10)]

def pad4 (n : Nat) : List Char :=
  [digitChar (n / 1000 % 10), digitChar (n / 100 % 10), digitChar (n / 10 % 10),
   digitChar (n % 10)]

/-- The clock reading embedded in an entry name: the fields rendered by
`toISOString`.  Resolution stops at milliseconds, exactly as in JavaScript. -/
@[ext]
structure Timestamp where
  year : Nat
  month : Nat
  day : Nat
  hour : Nat
  minute : Nat
  second : Nat
  ms : Nat
deriving DecidableEq, Repr

/-- Field bounds guaranteeing each field fits its zero-padded width. -/
def Timestamp.Valid (t : Timestamp) : Prop :=
  t.year < 10000 ∧ t.month < 100 ∧ t.day < 100 ∧ t.hour < 100 ∧
  t.minute < 100 ∧ t.second < 100 ∧ t.ms < 1000

instance (t : Timestamp) : Decidable t.Valid := by
  unfold Timestamp.Valid
  infer_instance

/-- `toISOString()` as a character list: `YYYY-MM-DDTHH:mm:ss.sssZ`. -/
def isoChars (t : Timestamp) : List Char :=
  pad4 t.year ++ '-' :: (pad2 t.month ++ '-' :: (pad2 t.day ++ 'T' ::
    (pad2 t.hour ++ ':' :: (pad2 t.minute ++ ':' :: (pad2 t.second ++ '.' ::
      (pad3 t.ms ++ ['Z']))))))

/-- One character of `.replace(/[:.]/g,'-')`. -/
def replaceChar (c : Char) : Char := if c = ':' ∨ c = '.' then '-' else c

def sanitizeChars (cs : List Char) : List Char := cs.map replaceChar

/-- `new Date().toISOString().replace(/[:.]/g,'-')`. -/
def tsStr (t : Timestamp) : String := String.mk (sanitizeChars (isoChars t))

theorem replaceChar_digit (n : Nat) :
    replaceChar (digitChar (n % 10)) = digitChar (n % 10) := by
  have h : n % 10 < 10 := Nat.mod_lt _ (by omega)
  have hall : ∀ d : Fin 10, replaceChar (digitChar d.val) = digitChar d.val := by decide
  exact hall ⟨n % 10, h⟩

theorem replaceChar_dash : replaceChar '-' = '-' := by decide

theorem replaceChar_T : replaceChar 'T' = 'T' := by decide

theorem replaceChar_colon : replaceChar ':' = '-' := by decide

theorem replaceChar_dot : replaceChar '.' = '-' := by decide

theorem replaceChar_Z : replaceChar 'Z' = 'Z' := by decide

theorem digitChar_mod_inj {a b : Nat} (h : digitChar (a % 10) = digitChar (b % 10)) :
    a % 10 = b % 10 := by
  have ha : a % 10 < 10 := Nat.mod_lt _ (by omega)
  have hb : b % 10 < 10 := Nat.mod_lt _ (by omega)
  have hall : ∀ x y : Fin 10, digitChar x.val = digitChar y.val → x.val = y.val := by decide
  exact hall ⟨a % 10, ha⟩ ⟨b % 10, hb⟩ h

/-- The sanitized ISO rendering is injective on valid timestamps: two clock
readings that differ anywhere (down to the millisecond) yield different
sanitized strings. -/
theorem sanitize_iso_inj {t₁ t₂ : Timestamp} (h₁ : t₁.Valid) (h₂ : t₂.Valid)
    (h : sanitizeChars (isoChars t₁) = sanitizeChars (isoChars t₂)) : t₁ = t₂ := by
  obtain ⟨hy₁, hmo₁, hd₁, hh₁, hmi₁, hs₁, hms₁⟩ := h₁
  obtain ⟨hy₂, hmo₂, hd₂, hh₂, hmi₂, hs₂, hms₂⟩ := h₂
  simp only [sanitizeChars, isoChars, pad4, pad3, pad2, List.map_append, List.map_cons,
    List.map_nil, replaceChar_digit, replaceChar_dash, replaceChar_T, replaceChar_colon,
    replaceChar_dot, replaceChar_Z, List.cons_append, List.nil_append,
    List.cons.injEq, and_true, true_and] at h
  obtain ⟨e1, e2, e3, e4, e5, e6, e7, e8, e9, e10, e11, e12, e13, e14, e15, e16, e17⟩ := h
  have g1 := digitChar_mod_inj e1
  have g2 := digitChar_mod_inj e2
  have g3 := digitChar_mod_inj e3
  have g4 := digitChar_mod_inj e4
  have g5 := digitChar_mod_inj e5
  have g6 := digitChar_mod_inj e6
  have g7 := digitChar_mod_inj e7
  have g8 := digitChar_mod_inj e8
  have g9 := digitChar_mod_inj e9
  have g10 := digitChar_mod_inj e10
  have g11 := digitChar_mod_inj e11
  have g12 := digitChar_mod_inj e12
  have g13 := digitChar_mod_inj e13
  have g14 := digitChar_mod_inj e14
  have g15 := digitChar_mod_inj e15
  have g16 := digitChar_mod_inj e16
  have g17 := digitChar_mod_inj e17
  apply Timestamp.ext <;> omega

/-- Log filename built by `app.post('/api/issues')` (server.js line 138). -/
def createFilename (id : Nat) (t : Timestamp) : String :=
  "create-issue-" ++ toString id ++ "-" ++ tsStr t ++ ".json"

/-- Log filename built by `app.put('/api/issues/:id')` (server.js line 161). -/
def updateFilename (id : Nat) (t : Timestamp) : String :=
  "update-issue-" ++ toString id ++ "-" ++ tsStr t ++ ".json"

/-- Log filename built by `app.post('/api/issues/:id/comments')`
(server.js line 189). -/
def commentFilename (id cid : Nat) (t : Timestamp) : String :=
  "comment-issue-" ++ toString id ++ "-" ++ toString cid ++ "-" ++ tsStr t ++ ".json"

theorem string_data_append (s t : String) : (s ++ t).data = s.data ++ t.data := by
  cases s
  cases t
  rfl

theorem fileName_tsStr_inj (p : String) {t₁ t₂ : Timestamp} (h₁ : t₁.Valid)
    (h₂ : t₂.Valid) (h : p ++ tsStr t₁ ++ ".json" = p ++ tsStr t₂ ++ ".json") :
    t₁ = t₂ := by
  apply sanitize_iso_inj h₁ h₂
  have hd := congrArg String.data h
  rw [string_data_append, string_data_append, string_data_append,
    string_data_append] at hd
  exact List.append_cancel_left (List.append_cancel_right hd)

/-- C4 (amended): entry names embed the timestamp at millisecond resolution
only, so they are collision-free exactly down to the millisecond: for any two
events of the same kind and subject (and, for comments, the same comment id)
whose clock readings differ anywhere — including only in the sub-second
(millisecond) field — the derived entry names differ.  (Two distinct events
falling in the same millisecond receive the same name, and no NameCollision
error exists; see the counterexample.) -/
theorem c4_names_inj (id cid : Nat) (t₁ t₂ : Timestamp)
    (h₁ : t₁.Valid) (h₂ : t₂.Valid) (hne : t₁ ≠ t₂) :
    createFilename id t₁ ≠ createFilename id t₂ ∧
    updateFilename id t₁ ≠ updateFilename id t₂ ∧
    commentFilename id cid t₁ ≠ commentFilename id cid t₂ := by
  refine ⟨?_, ?_, ?_⟩
  · intro h
    simp only [createFilename] at h
    exact hne (fileName_tsStr_inj _ h₁ h₂ h)
  · intro h
    simp only [updateFilename] at h
    exact hne (fileName_tsStr_inj _ h₁ h₂ h)
  · intro h
    simp only [commentFilename] at h
    exact hne (fileName_tsStr_inj _ h₁ h₂ h)

theorem c4_names_inj_witness :
    (Timestamp.mk 2025 1 2 3 4 5 6).Valid ∧ (Timestamp.mk 2025 1 2 3 4 5 7).Valid ∧
    Timestamp.mk 2025 1 2 3 4 5 6 ≠ Timestamp.mk 2025 1 2 3 4 5 7 ∧
    (createFilename 1 (Timestamp.mk 2025 1 2 3 4 5 6) ≠
       createFilename 1 (Timestamp.mk 2025 1 2 3 4 5 7) ∧
     updateFilename 1 (Timestamp.mk 2025 1 2 3 4 5 6) ≠
       updateFilename 1 (Timestamp.mk 2025 1 2 3 4 5 7) ∧
     commentFilename 1 2 (Timestamp.mk 2025 1 2 3 4 5 6) ≠
       commentFilename 1 2 (Timestamp.mk 2025 1 2 3 4 5 7)) :=
  ⟨by decide, by decide, by decide,
   c4_names_inj 1 2 (Timestamp.mk 2025 1 2 3 4 5 6) (Timestamp.mk 2025 1 2 3 4 5 7)
     (by decide) (by decide) (by decide)⟩

/-
Part 3: the durable log write.  `makeCommitTask` writes each entry with
`await fs.writeFile(filePath, JSON.stringify(content, null, 2), 'utf8')`
(server.js line 87).  Node's `fs.writeFile` uses flag `w` by default: it
creates the file when absent, and truncates and replaces an existing file of
the same name.  The log directory is modelled as an association list from
entry names to contents.
-/

inductive WriteError where
  | alreadyExists
deriving DecidableEq, Repr

def putEntry : List (String × String) → String → String → List (String × String)
  | [], name, content => [(name, content)]
  | (k, v) :: rest, name, content =>
    if k = name then (name, content) :: rest else (k, v) :: putEntry rest name content

def getEntry : List (String × String) → String → Option String
  | [], _ => none
  | (k, v) :: rest, name => if k = name then some v else getEntry rest name

/-- `fs.writeFile` with the default `w` flag: create-or-truncate.  It never
reports an existing entry. -/
def fsWriteFile (store : List (String × String)) (name content : String) :
    Except WriteError (List (String × String)) :=
  Except.ok (putEntry store name content)

theorem getEntry_putEntry_same (store : List (String × String)) (name content : String) :
    getEntry (putEntry store name content) name = some content := by
  induction store with
  | nil => simp [putEntry, getEntry]
  | cons p rest ih =>
    obtain ⟨k, v⟩ := p
    by_cases hk : k = name
    · simp [putEntry, getEntry, hk]
    · simp [putEntry, getEntry, hk, ih]

theorem getEntry_putEntry_other (store : List (String × String))
    (name content k : String) (h : k ≠ name) :
    getEntry (putEntry store name content) k = getEntry store k := by
  induction store with
  | nil => simp [putEntry, getEntry, Ne.symm h]
  | cons p rest ih =>
    obtain ⟨k', v⟩ := p
    by_cases hk : k' = name
    · subst hk
      simp [putEntry, getEntry, Ne.symm h]
    · simp only [putEntry, if_neg hk, getEntry]
      by_cases hk2 : k' = k
      · simp [hk2]
      · simp [hk2, ih]

/-- C5 (amended): the durable log write always succeeds.  When an entry with
the same name already exists it is silently truncated and replaced by the new
content (no `AlreadyExists` error is ever produced); entries under other
names are untouched. -/
theorem c5_write_overwrites (store : List (String × String)) (name content k : String) :
    fsWriteFile store name content = Except.ok (putEntry store name content) ∧
    getEntry (putEntry store name content) name = some content ∧
    (k ≠ name → getEntry (putEntry store name content) k = getEntry store k) :=
  ⟨rfl, getEntry_putEntry_same store name content,
   fun h => getEntry_putEntry_other store name content k h⟩

theorem c5_write_overwrites_witness :
    ("b.json" : String) ≠ "a.json" ∧
    (fsWriteFile [("a.json", "x")] "a.json" "y" =
        Except.ok (putEntry [("a.json", "x")] "a.json" "y") ∧
      getEntry (putEntry [("a.json", "x")] "a.json" "y") "a.json" = some "y" ∧
      (("b.json" : String) ≠ "a.json" →
        getEntry (putEntry [("a.json", "x")] "a.json" "y") "b.json" =
          getEntry [("a.json", "x")] "b.json")) :=
  ⟨by decide, c5_write_overwrites [("a.json", "x")] "a.json" "y" "b.json"⟩

/-- C5 counterexample: writing an entry whose name already exists does not
fail with `AlreadyExists`; it succeeds and replaces the prior content. -/
theorem c5_counterexample :
    fsWriteFile [("entry.json", "old")] "entry.json" "new" =
      Except.ok [("entry.json", "new")] ∧
    getEntry (putEntry [("entry.json", "old")] "entry.json" "new") "entry.json" =
      some "new" ∧
    "new" ≠ "old" :=
  ⟨rfl, rfl, by decide⟩

/-
Part 4: the mutation pipeline (server.js lines 123-194).  The sqlite tables
are modelled as lists of rows.  `db.get('SELECT * FROM issues WHERE id = ?')`
returns the first row with that id; `INSERT` appends a row whose id is the
AUTOINCREMENT counter; `UPDATE ... WHERE id = ?` rewrites every row with that
id; the `comments` attached to an issue are the comment rows whose `issue_id`
matches, in insertion order.  Each handler returns the new database, its HTTP
status, and the ordered list of externally visible actions it performed, in
program order: the store writes, the `io.emit` broadcast, and the
`commitQueue.push(makeCommitTask(filename, content, message))` call.
-/

structure Issue where
  id : Nat
  title : String
  description : String
  status : String
  assignee : Option String
  created_at : String
  updated_at : String
deriving DecidableEq, Repr

structure Comment where
  id : Nat
  issue_id : Nat
  author : String
  text : String
  created_at : String
deriving DecidableEq, Repr

structure Db where
  issues : List Issue
  comments : List Comment
  nextIssueId : Nat
  nextCommentId : Nat
deriving DecidableEq, Repr

/-- AUTOINCREMENT discipline: every stored row's id is below the counter. -/
def Db.WF (db : Db) : Prop :=
  (∀ i ∈ db.issues, i.id < db.nextIssueId) ∧
  (∀ c ∈ db.comments, c.id < db.nextCommentId)

instance (db : Db) : Decidable db.WF := by
  unfold Db.WF
  infer_instance

/-- `db.get('SELECT * FROM issues WHERE id = ?', [id])`. -/
def findIssue : List Issue → Nat → Option Issue
  | [], _ => none
  | i :: rest, id => if i.id = id then some i else findIssue rest id

/-- `db.get('SELECT * FROM comments WHERE id = ?', [id])`. -/
def findComment : List Comment → Nat → Option Comment
  | [], _ => none
  | c :: rest, id => if c.id = id then some c else findComment rest id

/-- `db.all('SELECT * FROM comments WHERE issue_id = ? ORDER BY created_at')`. -/
def commentsFor : List Comment → Nat → List Comment
  | [], _ => []
  | c :: rest, id =>
    if c.issue_id = id then c :: commentsFor rest id else commentsFor rest id

/-- An issue row with its attached `comments` array, as the handlers
broadcast and log it. -/
structure IssueView where
  issue : Issue
  comments : List Comment
deriving DecidableEq, Repr

/-- The object serialized into the log entry: `{ action, ...fields }`
(`{action:'create', issue}`, `{action:'update', before, after}`,
`{action:'comment', issue, comment}`). -/
inductive LogContent where
  | create (issue : IssueView)
  | update (before : Issue) (after : IssueView)
  | comment (issue : IssueView) (c : Comment)
deriving DecidableEq, Repr

/-- The `action` discriminator of the serialized body. -/
def LogContent.action : LogContent → String
  | LogContent.create _ => "create"
  | LogContent.update _ _ => "update"
  | LogContent.comment _ _ => "comment"

/-- One externally visible action of a handler, in program order. -/
inductive Effect where
  | dbWrite
  | emitCreated (payload : IssueView)
  | emitUpdated (payload : IssueView)
  | emitComment (issue : IssueView) (c : Comment)
  | enqueueTask (filename : String) (content : LogContent) (message : String)
deriving DecidableEq, Repr

structure HOut where
  db : Db
  status : Nat
  effects : List Effect
deriving DecidableEq, Repr

structure CreateReq where
  title : Option String
  description : Option String
  assignee : Option String
deriving DecidableEq, Repr

structure UpdateReq where
  title : Option String
  description : Option String
  status : Option String
  assignee : Option String
deriving DecidableEq, Repr

structure CommentReq where
  author : Option String
  text : Option String
deriving DecidableEq, Repr

/-- JavaScript falsiness of an optional string field (`undefined`, `null`,
or the empty string). -/
def jsFalsy : Option String → Bool
  | none => true
  | some s => s == ""

/-- `x || null`. -/
def jsOrNull : Option String → Option String
  | none => none
  | some s => if s = "" then none else some s

def createMessage (id : Nat) (title : String) : String :=
  "Create issue #" ++ toString id ++ ": " ++ title

def updateMessage (id : Nat) (status : Option String) : String :=
  "Update issue #" ++ toString id ++ ": set " ++
    (if jsFalsy status then "no-status-change" else status.getD "")

def commentMessage (id : Nat) (author : String) : String :=
  "Comment on issue #" ++ toString id ++ " by " ++
    (if author = "" then "anon" else author)

/-- The row `INSERT INTO issues (title, description, assignee)` stores
(server.js lines 126-129), with the schema defaults of lines 27-35. -/
def createdRow (db : Db) (req : CreateReq) (now : String) : Issue :=
  { id := db.nextIssueId, title := req.title.getD "",
    description := req.description.getD "", status := "open",
    assignee := jsOrNull req.assignee, created_at := now, updated_at := now }

/-- `app.post('/api/issues')` (server.js lines 123-143). -/
def createIssue (db : Db) (req : CreateReq) (now : String) (t : Timestamp) : HOut :=
  if jsFalsy req.title then
    { db := db, status := 400, effects := [] }
  else
    let row : Issue := createdRow db req now
    let db' : Db :=
      { db with issues := db.issues ++ [row], nextIssueId := db.nextIssueId + 1 }
    match findIssue db'.issues row.id with
    | none => { db := db', status := 500, effects := [Effect.dbWrite] }
    | some issue =>
      let view : IssueView := { issue := issue, comments := [] }
      { db := db', status := 201,
        effects := [Effect.dbWrite, Effect.emitCreated view,
          Effect.enqueueTask (createFilename row.id t) (LogContent.create view)
            (createMessage row.id issue.title)] }

/-- The row rewrite of `UPDATE issues SET title = COALESCE(?, title), ...,
updated_at = datetime('now') WHERE id = ?` (server.js lines 151-154):
a NULL parameter keeps the stored value, a non-NULL one replaces it. -/
def updateRow (req : UpdateReq) (now : String) (i : Issue) : Issue :=
  { i with title := req.title.getD i.title,
           description := req.description.getD i.description,
           status := req.status.getD i.status,
           assignee := (match req.assignee with
                        | none => i.assignee
                        | some v => some v),
           updated_at := now }

/-- `app.put('/api/issues/:id')` (server.js lines 145-166). -/
def updateIssue (db : Db) (id : Nat) (req : UpdateReq) (now : String)
    (t : Timestamp) : HOut :=
  match findIssue db.issues id with
  | none => { db := db, status := 404, effects := [] }
  | some existing =>
    let db' : Db :=
      { db with issues :=
          db.issues.map (fun i => if i.id = id then updateRow req now i else i) }
    match findIssue db'.issues id with
    | none => { db := db', status := 500, effects := [Effect.dbWrite] }
    | some updated =>
      let view : IssueView := { issue := updated, comments := commentsFor db'.comments id }
      { db := db', status := 200,
        effects := [Effect.dbWrite, Effect.emitUpdated view,
          Effect.enqueueTask (updateFilename id t) (LogContent.update existing view)
            (updateMessage id req.status)] }

/-- The row `INSERT INTO comments (issue_id, author, text)` stores
(server.js lines 175-178). -/
def newCommentRow (db : Db) (id : Nat) (req : CommentReq) (now : String) : Comment :=
  { id := db.nextCommentId, issue_id := id,
    author := if jsFalsy req.author then "anonymous" else req.author.getD "",
    text := req.text.getD "", created_at := now }

/-- `app.post('/api/issues/:id/comments')` (server.js lines 168-194). -/
def addComment (db : Db) (id : Nat) (req : CommentReq) (now : String)
    (t : Timestamp) : HOut :=
  if jsFalsy req.text then
    { db := db, status := 400, effects := [] }
  else
    match findIssue db.issues id with
    | none => { db := db, status := 404, effects := [] }
    | some _ =>
      let row : Comment := newCommentRow db id req now
      let db1 : Db :=
        { db with comments := db.comments ++ [row],
                  nextCommentId := db.nextCommentId + 1 }
      match findComment db1.comments row.id with
      | none => { db := db1, status := 500, effects := [Effect.dbWrite] }
      | some comment =>
        let db2 : Db :=
          { db1 with issues :=
              db1.issues.map (fun i =>
                if i.id = id then { i with updated_at := now } else i) }
        match findIssue db2.issues id with
        | none => { db := db2, status := 500, effects := [Effect.dbWrite, Effect.dbWrite] }
        | some updatedIssue =>
          let view : IssueView :=
            { issue := updatedIssue, comments := commentsFor db2.comments id }
          { db := db2, status := 201,
            effects := [Effect.dbWrite, Effect.dbWrite, Effect.emitComment view comment,
              Effect.enqueueTask (commentFilename id row.id t)
                (LogContent.comment view comment) (commentMessage id comment.author)] }

/-- The tasks a handler enqueued: filename, content, commit message. -/
def enqueuedOf (o : HOut) : List (String × LogContent × String) :=
  o.effects.filterMap (fun e =>
    match e with
    | Effect.enqueueTask f c m => some (f, c, m)
    | _ => none)

theorem findIssue_append_fresh (l : List Issue) (row : Issue)
    (h : ∀ i ∈ l, i.id < row.id) : findIssue (l ++ [row]) row.id = some row := by
  induction l with
  | nil => simp [findIssue]
  | cons i rest ih =>
    have hi : i.id < row.id := h i (by simp)
    have hne : ¬(i.id = row.id) := by omega
    simp only [List.cons_append, findIssue, if_neg hne]
    exact ih (fun j hj => h j (by simp [hj]))

theorem findComment_append_fresh (l : List Comment) (row : Comment)
    (h : ∀ c ∈ l, c.id < row.id) : findComment (l ++ [row]) row.id = some row := by
  induction l with
  | nil => simp [findComment]
  | cons c rest ih =>
    have hc : c.id < row.id := h c (by simp)
    have hne : ¬(c.id = row.id) := by omega
    simp only [List.cons_append, findComment, if_neg hne]
    exact ih (fun j hj => h j (by simp [hj]))

theorem findIssue_map_upd (l : List Issue) (id : Nat) (ex : Issue)
    (f : Issue → Issue) (hf : ∀ i, (f i).id = i.id)
    (h : findIssue l id = some ex) :
    findIssue (l.map (fun i => if i.id = id then f i else i)) id = some (f ex) := by
  induction l with
  | nil => simp [findIssue] at h
  | cons i rest ih =>
    by_cases hii : i.id = id
    · simp only [findIssue, if_pos hii] at h
      have hex : i = ex := by injection h
      subst hex
      simp only [List.map_cons, if_pos hii, findIssue]
      rw [if_pos]
      rw [hf]
      exact hii
    · simp only [findIssue, if_neg hii] at h
      simp only [List.map_cons, if_neg hii, findIssue]
      exact ih h

theorem findIssue_map_other (l : List Issue) (id j : Nat) (f : Issue → Issue)
    (hf : ∀ i, (f i).id = i.id) (hne : j ≠ id) :
    findIssue (l.map (fun i => if i.id = id then f i else i)) j = findIssue l j := by
  induction l with
  | nil => simp [findIssue]
  | cons i rest ih =>
    by_cases hii : i.id = id
    · have hfj : ¬((f i).id = j) := by rw [hf, hii]; exact fun hc => hne hc.symm
      have hij : ¬(i.id = j) := by rw [hii]; exact fun hc => hne hc.symm
      simp only [List.map_cons, if_pos hii, findIssue, if_neg hfj, if_neg hij]
      exact ih
    · simp only [List.map_cons, if_neg hii, findIssue]
      by_cases hij : i.id = j
      · simp [hij]
      · simp only [if_neg hij]
        exact ih

theorem createdRow_id (db : Db) (req : CreateReq) (now : String) :
    (createdRow db req now).id = db.nextIssueId := rfl

theorem newCommentRow_id (db : Db) (id : Nat) (req : CommentReq) (now : String) :
    (newCommentRow db id req now).id = db.nextCommentId := rfl

/-- C7: each accepted mutation performs its effects in the fixed program
order: the store write(s) first, then the broadcast of the freshly re-read
post-mutation snapshot, then the enqueue of the commit task — and the
enqueued audit record is built from that same post-mutation snapshot (for an
update, its `after` field; for a comment, the bumped issue), which the
handler's final state confirms as the current row. -/
theorem c7_pipeline_order (db : Db) (now : String) (t : Timestamp)
    (req : CreateReq) (idU : Nat) (ureq : UpdateReq) (exU : Issue)
    (idC : Nat) (creq : CommentReq) (exC : Issue)
    (hwf : Db.WF db)
    (hreq : jsFalsy req.title = false)
    (hexU : findIssue db.issues idU = some exU)
    (hct : jsFalsy creq.text = false)
    (hexC : findIssue db.issues idC = some exC) :
    ((createIssue db req now t).effects =
        [Effect.dbWrite,
         Effect.emitCreated { issue := createdRow db req now, comments := [] },
         Effect.enqueueTask (createFilename db.nextIssueId t)
           (LogContent.create { issue := createdRow db req now, comments := [] })
           (createMessage db.nextIssueId (createdRow db req now).title)] ∧
      findIssue (createIssue db req now t).db.issues db.nextIssueId =
        some (createdRow db req now)) ∧
    ((updateIssue db idU ureq now t).effects =
        [Effect.dbWrite,
         Effect.emitUpdated { issue := updateRow ureq now exU,
                              comments := commentsFor db.comments idU },
         Effect.enqueueTask (updateFilename idU t)
           (LogContent.update exU { issue := updateRow ureq now exU,
                                    comments := commentsFor db.comments idU })
           (updateMessage idU ureq.status)] ∧
      findIssue (updateIssue db idU ureq now t).db.issues idU =
        some (updateRow ureq now exU)) ∧
    ((addComment db idC creq now t).effects =
        [Effect.dbWrite, Effect.dbWrite,
         Effect.emitComment
           { issue := { exC with updated_at := now },
             comments := commentsFor (db.comments ++ [newCommentRow db idC creq now]) idC }
           (newCommentRow db idC creq now),
         Effect.enqueueTask (commentFilename idC db.nextCommentId t)
           (LogContent.comment
             { issue := { exC with updated_at := now },
               comments := commentsFor (db.comments ++ [newCommentRow db idC creq now]) idC }
             (newCommentRow db idC creq now))
           (commentMessage idC (newCommentRow db idC creq now).author)] ∧
      findIssue (addComment db idC creq now t).db.issues idC =
        some { exC with updated_at := now }) := by
  have hrowC : findIssue (db.issues ++ [createdRow db req now]) db.nextIssueId =
      some (createdRow db req now) :=
    findIssue_append_fresh db.issues (createdRow db req now) hwf.1
  have hrowU : findIssue
      (db.issues.map (fun i => if i.id = idU then updateRow ureq now i else i)) idU =
      some (updateRow ureq now exU) :=
    findIssue_map_upd db.issues idU exU (updateRow ureq now) (fun i => rfl) hexU
  have hcmt : findComment (db.comments ++ [newCommentRow db idC creq now])
      db.nextCommentId = some (newCommentRow db idC creq now) :=
    findComment_append_fresh db.comments (newCommentRow db idC creq now) hwf.2
  have hbump : findIssue
      (db.issues.map (fun i => if i.id = idC then { i with updated_at := now } else i))
      idC = some { exC with updated_at := now } :=
    findIssue_map_upd db.issues idC exC (fun i => { i with updated_at := now })
      (fun i => rfl) hexC
  refine ⟨⟨?_, ?_⟩, ⟨?_, ?_⟩, ⟨?_, ?_⟩⟩
  · simp [createIssue, hreq, createdRow_id, hrowC]
  · simp [createIssue, hreq, createdRow_id, hrowC]
  · simp [updateIssue, hexU, hrowU]
  · simp [updateIssue, hexU, hrowU]
  · simp [addComment, hct, hexC, newCommentRow_id, hcmt, hbump]
  · simp [addComment, hct, hexC, newCommentRow_id, hcmt, hbump]

/-- C9: a mutation request that fails validation or targets a missing
resource gets an error status (400 or 404) and performs no effect at all:
the database is returned unchanged and no store write, broadcast, or commit
task enqueue happens. -/
theorem c9_invalid_no_effects (db : Db) (id : Nat) (now : String) (t : Timestamp)
    (req : CreateReq) (ureq : UpdateReq) (creq : CommentReq) :
    (jsFalsy req.title = true →
      createIssue db req now t = { db := db, status := 400, effects := [] }) ∧
    (findIssue db.issues id = none →
      updateIssue db id ureq now t = { db := db, status := 404, effects := [] }) ∧
    (jsFalsy creq.text = true →
      addComment db id creq now t = { db := db, status := 400, effects := [] }) ∧
    (jsFalsy creq.text = false → findIssue db.issues id = none →
      addComment db id creq now t = { db := db, status := 404, effects := [] }) := by
  refine ⟨?_, ?_, ?_, ?_⟩
  · intro h
    simp [createIssue, h]
  · intro h
    simp [updateIssue, h]
  · intro h
    simp [addComment, h]
  · intro h1 h2
    simp [addComment, h1, h2]

/-- C10: `COALESCE` semantics of the update.  The stored row after an update
of an existing issue keeps every field whose request value is NULL, replaces
every supplied field, keeps `id` and `created_at`, sets `updated_at`, and no
other issue row changes. -/
theorem c10_coalesce_frame (db : Db) (id j : Nat) (req : UpdateReq) (now : String)
    (t : Timestamp) (ex : Issue) (v : String)
    (hex : findIssue db.issues id = some ex) :
    findIssue (updateIssue db id req now t).db.issues id =
      some (updateRow req now ex) ∧
    (req.title = none → (updateRow req now ex).title = ex.title) ∧
    (req.description = none →
      (updateRow req now ex).description = ex.description) ∧
    (req.status = none → (updateRow req now ex).status = ex.status) ∧
    (req.assignee = none → (updateRow req now ex).assignee = ex.assignee) ∧
    (req.title = some v → (updateRow req now ex).title = v) ∧
    (req.description = some v → (updateRow req now ex).description = v) ∧
    (req.status = some v → (updateRow req now ex).status = v) ∧
    (req.assignee = some v → (updateRow req now ex).assignee = some v) ∧
    (updateRow req now ex).id = ex.id ∧
    (updateRow req now ex).created_at = ex.created_at ∧
    (updateRow req now ex).updated_at = now ∧
    (j ≠ id → findIssue (updateIssue db id req now t).db.issues j =
      findIssue db.issues j) := by
  have hrowU : findIssue
      (db.issues.map (fun i => if i.id = id then updateRow req now i else i)) id =
      some (updateRow req now ex) :=
    findIssue_map_upd db.issues id ex (updateRow req now) (fun i => rfl) hex
  refine ⟨?_, ?_, ?_, ?_, ?_, ?_, ?_, ?_, ?_, rfl, rfl, rfl, ?_⟩
  · simp [updateIssue, hex, hrowU]
  · intro h
    simp [updateRow, h]
  · intro h
    simp [updateRow, h]
  · intro h
    simp [updateRow, h]
  · intro h
    simp [updateRow, h]
  · intro h
    simp [updateRow, h]
  · intro h
    simp [updateRow, h]
  · intro h
    simp [updateRow, h]
  · intro h
    simp [updateRow, h]
  · intro hj
    have hother := findIssue_map_other db.issues id j (updateRow req now)
      (fun i => rfl) hj
    simp [updateIssue, hex, hrowU, hother]

/-- Modelled from the spec: the section 6 naming scheme — kind, then
subjectId, then the colon-and-dot-free ISO timestamp, joined by single
dashes, with extension `.json`. -/
def specSchemeName (kind subjectId ts : String) : String :=
  kind ++ "-" ++ subjectId ++ "-" ++ ts ++ ".json"

/-- C6 (amended): every accepted mutation enqueues exactly one commit task;
its entry name is `create-issue-{issueId}-{ts}.json` or
`update-issue-{issueId}-{ts}.json` or, for comments,
`comment-issue-{issueId}-{commentId}-{ts}.json` (the literal word `issue`
follows the kind, and comment entries also embed the comment id); its body is
the object `{action, ...event fields}` with `action` equal to the mutation
kind. -/
theorem c6_naming (db : Db) (now : String) (t : Timestamp)
    (req : CreateReq) (idU : Nat) (ureq : UpdateReq) (exU : Issue)
    (idC : Nat) (creq : CommentReq) (exC : Issue)
    (hwf : Db.WF db) (hreq : jsFalsy req.title = false)
    (hexU : findIssue db.issues idU = some exU)
    (hct : jsFalsy creq.text = false)
    (hexC : findIssue db.issues idC = some exC) :
    enqueuedOf (createIssue db req now t) =
      [("create-issue-" ++ toString db.nextIssueId ++ "-" ++ tsStr t ++ ".json",
        LogContent.create { issue := createdRow db req now, comments := [] },
        createMessage db.nextIssueId (createdRow db req now).title)] ∧
    (LogContent.create { issue := createdRow db req now, comments := [] }).action =
      "create" ∧
    enqueuedOf (updateIssue db idU ureq now t) =
      [("update-issue-" ++ toString idU ++ "-" ++ tsStr t ++ ".json",
        LogContent.update exU { issue := updateRow ureq now exU,
                                comments := commentsFor db.comments idU },
        updateMessage idU ureq.status)] ∧
    (LogContent.update exU { issue := updateRow ureq now exU,
                             comments := commentsFor db.comments idU }).action =
      "update" ∧
    enqueuedOf (addComment db idC creq now t) =
      [("comment-issue-" ++ toString idC ++ "-" ++ toString db.nextCommentId ++
          "-" ++ tsStr t ++ ".json",
        LogContent.comment
          { issue := { exC with updated_at := now },
            comments := commentsFor (db.comments ++ [newCommentRow db idC creq now]) idC }
          (newCommentRow db idC creq now),
        commentMessage idC (newCommentRow db idC creq now).author)] ∧
    (LogContent.comment
      { issue := { exC with updated_at := now },
        comments := commentsFor (db.comments ++ [newCommentRow db idC creq now]) idC }
      (newCommentRow db idC creq now)).action = "comment" := by
  have hrowC : findIssue (db.issues ++ [createdRow db req now]) db.nextIssueId =
      some (createdRow db req now) :=
    findIssue_append_fresh db.issues (createdRow db req now) hwf.1
  have hrowU : findIssue
      (db.issues.map (fun i => if i.id = idU then updateRow ureq now i else i)) idU =
      some (updateRow ureq now exU) :=
    findIssue_map_upd db.issues idU exU (updateRow ureq now) (fun i => rfl) hexU
  have hcmt : findComment (db.comments ++ [newCommentRow db idC creq now])
      db.nextCommentId = some (newCommentRow db idC creq now) :=
    findComment_append_fresh db.comments (newCommentRow db idC creq now) hwf.2
  have hbump : findIssue
      (db.issues.map (fun i => if i.id = idC then { i with updated_at := now } else i))
      idC = some { exC with updated_at := now } :=
    findIssue_map_upd db.issues idC exC (fun i => { i with updated_at := now })
      (fun i => rfl) hexC
  refine ⟨?_, rfl, ?_, rfl, ?_, rfl⟩
  · simp [createIssue, hreq, createdRow_id, hrowC, enqueuedOf, createFilename]
  · simp [updateIssue, hexU, hrowU, enqueuedOf, updateFilename]
  · simp [addComment, hct, hexC, newCommentRow_id, hcmt, hbump, enqueuedOf,
      commentFilename]

/-- A concrete database: one issue with id 1, no comments. -/
def exIssue : Issue :=
  { id := 1, title := "a", description := "", status := "open",
    assignee := none, created_at := "2025-01-01 00:00:00",
    updated_at := "2025-01-01 00:00:00" }

def exDb : Db :=
  { issues := [exIssue], comments := [], nextIssueId := 2, nextCommentId := 1 }

/-- A concrete clock reading, 2025-01-02T03:04:05.006Z. -/
def exT : Timestamp := ⟨2025, 1, 2, 3, 4, 5, 6⟩

/-- C4 counterexample: two distinct update events for the same subject (issue
1) landing in the same millisecond produce identical entry names; both runs
succeed with status 200 and enqueue their task — no NameCollision error
exists, so the second entry would overwrite the first. -/
theorem c4_counterexample :
    (enqueuedOf (updateIssue exDb 1 ⟨none, none, some "closed", none⟩ "n1" exT)).map
        Prod.fst =
      (enqueuedOf (updateIssue exDb 1 ⟨none, none, some "wontfix", none⟩ "n2" exT)).map
        Prod.fst ∧
    (enqueuedOf (updateIssue exDb 1 ⟨none, none, some "closed", none⟩ "n1" exT)).map
        (fun x => x.2.1) ≠
      (enqueuedOf (updateIssue exDb 1 ⟨none, none, some "wontfix", none⟩ "n2" exT)).map
        (fun x => x.2.1) ∧
    (updateIssue exDb 1 ⟨none, none, some "closed", none⟩ "n1" exT).status = 200 ∧
    (updateIssue exDb 1 ⟨none, none, some "wontfix", none⟩ "n2" exT).status = 200 := by
  decide

/-- C6 counterexample: the entry names the handlers build do not follow the
claimed `kind-subjectId-timestamp.json` scheme: the comment handler emits
`comment-issue-1-1-TS.json` (with the literal `issue` and the comment id),
not `comment-1-TS.json`, and the create handler emits
`create-issue-2-TS.json`, not `create-2-TS.json`. -/
theorem c6_counterexample :
    (enqueuedOf (addComment exDb 1 ⟨some "bob", some "hi"⟩ "now" exT)).map Prod.fst =
      ["comment-issue-1-1-" ++ tsStr exT ++ ".json"] ∧
    (enqueuedOf (addComment exDb 1 ⟨some "bob", some "hi"⟩ "now" exT)).map Prod.fst ≠
      [specSchemeName "comment" (toString 1) (tsStr exT)] ∧
    (enqueuedOf (createIssue exDb ⟨some "x", none, none⟩ "now" exT)).map Prod.fst =
      ["create-issue-2-" ++ tsStr exT ++ ".json"] ∧
    (enqueuedOf (createIssue exDb ⟨some "x", none, none⟩ "now" exT)).map Prod.fst ≠
      [specSchemeName "create" (toString 2) (tsStr exT)] := by
  decide

def exCrReq : CreateReq := ⟨some "x", none, none⟩

def exUReq : UpdateReq := ⟨none, none, some "closed", none⟩

def exCReq : CommentReq := ⟨some "bob", some "hi"⟩

theorem c7_pipeline_order_witness :
    Db.WF exDb ∧ jsFalsy exCrReq.title = false ∧
    findIssue exDb.issues 1 = some exIssue ∧ jsFalsy exCReq.text = false ∧
    ((createIssue exDb exCrReq "now" exT).effects =
      [Effect.dbWrite,
       Effect.emitCreated { issue := createdRow exDb exCrReq "now", comments := [] },
       Effect.enqueueTask (createFilename exDb.nextIssueId exT)
         (LogContent.create { issue := createdRow exDb exCrReq "now", comments := [] })
         (createMessage exDb.nextIssueId (createdRow exDb exCrReq "now").title)] ∧
     findIssue (createIssue exDb exCrReq "now" exT).db.issues exDb.nextIssueId =
       some (createdRow exDb exCrReq "now")) :=
  ⟨by decide, by decide, by decide, by decide,
   (c7_pipeline_order exDb "now" exT exCrReq 1 exUReq exIssue 1 exCReq exIssue
     (by decide) (by decide) (by decide) (by decide) (by decide)).1⟩

theorem c6_naming_witness :
    Db.WF exDb ∧ jsFalsy exCrReq.title = false ∧
    findIssue exDb.issues 1 = some exIssue ∧ jsFalsy exCReq.text = false ∧
    enqueuedOf (createIssue exDb exCrReq "now" exT) =
      [("create-issue-" ++ toString exDb.nextIssueId ++ "-" ++ tsStr exT ++ ".json",
        LogContent.create { issue := createdRow exDb exCrReq "now", comments := [] },
        createMessage exDb.nextIssueId (createdRow exDb exCrReq "now").title)] :=
  ⟨by decide, by decide, by decide, by decide,
   (c6_naming exDb "now" exT exCrReq 1 exUReq exIssue 1 exCReq exIssue
     (by decide) (by decide) (by decide) (by decide) (by decide)).1⟩

theorem c9_invalid_no_effects_witness :
    jsFalsy (none : Option String) = true ∧
    findIssue exDb.issues 99 = none ∧
    createIssue exDb ⟨none, none, none⟩ "now" exT =
      { db := exDb, status := 400, effects := [] } ∧
    updateIssue exDb 99 exUReq "now" exT =
      { db := exDb, status := 404, effects := [] } ∧
    addComment exDb 1 ⟨none, none⟩ "now" exT =
      { db := exDb, status := 400, effects := [] } ∧
    addComment exDb 99 exCReq "now" exT =
      { db := exDb, status := 404, effects := [] } :=
  ⟨by decide, by decide,
   (c9_invalid_no_effects exDb 99 "now" exT ⟨none, none, none⟩ exUReq
     ⟨none, none⟩).1 (by decide),
   (c9_invalid_no_effects exDb 99 "now" exT ⟨none, none, none⟩ exUReq
     ⟨none, none⟩).2.1 (by decide),
   (c9_invalid_no_effects exDb 1 "now" exT ⟨none, none, none⟩ exUReq
     ⟨none, none⟩).2.2.1 (by decide),
   (c9_invalid_no_effects exDb 99 "now" exT ⟨none, none, none⟩ exUReq
     exCReq).2.2.2 (by decide) (by decide)⟩

theorem c10_coalesce_frame_witness :
    findIssue exDb.issues 1 = some exIssue ∧
    (findIssue (updateIssue exDb 1 exUReq "now" exT).db.issues 1 =
        some (updateRow exUReq "now" exIssue) ∧
      (exUReq.title = none →
        (updateRow exUReq "now" exIssue).title = exIssue.title) ∧
      (exUReq.description = none →
        (updateRow exUReq "now" exIssue).description = exIssue.description) ∧
      (exUReq.status = none →
        (updateRow exUReq "now" exIssue).status = exIssue.status) ∧
      (exUReq.assignee = none →
        (updateRow exUReq "now" exIssue).assignee = exIssue.assignee) ∧
      (exUReq.title = some "closed" →
        (updateRow exUReq "now" exIssue).title = "closed") ∧
      (exUReq.description = some "closed" →
        (updateRow exUReq "now" exIssue).description = "closed") ∧
      (exUReq.status = some "closed" →
        (updateRow exUReq "now" exIssue).status = "closed") ∧
      (exUReq.assignee = some "closed" →
        (updateRow exUReq "now" exIssue).assignee = some "closed") ∧
      (updateRow exUReq "now" exIssue).id = exIssue.id ∧
      (updateRow exUReq "now" exIssue).created_at = exIssue.created_at ∧
      (updateRow exUReq "now" exIssue).updated_at = "now" ∧
      (2 ≠ 1 → findIssue (updateIssue exDb 1 exUReq "now" exT).db.issues 2 =
        findIssue exDb.issues 2)) :=
  ⟨by decide,
   c10_coalesce_frame exDb 1 2 exUReq "now" exT exIssue "closed" (by decide)⟩
